import Mathlib

/-!
Verification of the orbis moderation bot (src/bot.py): the two pure
classification predicates `contains_too_much_caps` and `contains_emojis`,
and the reaction policy of `OrbisClient.on_message`, embedded shallowly.
Strings are Lean `String`s, Python float arithmetic is modelled with exact
rationals (`ℚ`), and the possible `ZeroDivisionError` in
`contains_too_much_caps` is modelled with `Option` (`none` = the call
raises).
-/

namespace Orbis

/-- Embedding of Python `str.isupper()` on a single character: true for
characters with the Unicode `Uppercase` derived property (general category
`Lu` plus `Other_Uppercase`).  The table is restricted to the code points
exercised in this development: ASCII, the circled capital letters
U+24B6..U+24CF (category `So`, listed under `Other_Uppercase` in
PropList.txt) and the uppercase Roman numerals U+2160..U+216F (category
`Nl`, also `Other_Uppercase`); every other code point is classified
false. -/
def pyIsUpper (c : Char) : Bool :=
  let n := c.toNat
  (0x41 ≤ n && n ≤ 0x5A)
  || (0x24B6 ≤ n && n ≤ 0x24CF)
  || (0x2160 ≤ n && n ≤ 0x216F)

/-- Embedding of Python `str.isalpha()` on a single character: true for
characters of general category `Lu`, `Ll`, `Lt`, `Lm` or `Lo`.  The table
is restricted to the code points exercised in this development: ASCII
letters, hiragana U+3041..U+3096, katakana U+30A1..U+30FA, CJK unified
ideographs U+4E00..U+9FFF and Hangul syllables U+AC00..U+D7A3 (all `Lo`);
every other code point — in particular the circled capital letters
U+24B6..U+24CF (`So`) and the Roman numerals U+2160..U+216F (`Nl`) — is
classified false, as in Python. -/
def pyIsAlpha (c : Char) : Bool :=
  let n := c.toNat
  (0x41 ≤ n && n ≤ 0x5A)
  || (0x61 ≤ n && n ≤ 0x7A)
  || (0x3041 ≤ n && n ≤ 0x3096)
  || (0x30A1 ≤ n && n ≤ 0x30FA)
  || (0x4E00 ≤ n && n ≤ 0x9FFF)
  || (0xAC00 ≤ n && n ≤ 0xD7A3)

/-- `caps_count = sum(1 for char in text if char.isupper())` (bot.py line 49). -/
def capsCount (text : String) : ℕ :=
  (text.data.filter pyIsUpper).length

/-- `alpha_count = sum(1 for char in text if char.isalpha())` (bot.py line 50). -/
def alphaCount (text : String) : ℕ :=
  (text.data.filter pyIsAlpha).length

/-- Embedding of `contains_too_much_caps` (bot.py lines 43-55), with the
threshold and the minimum-letter count passed explicitly (in the source
they are the module globals `CAPS_THRESHOLD` and `MIN_ALPHA_CHARS` read
from config.json).  Python evaluates
`alpha_count >= MIN_ALPHA_CHARS and caps_count / alpha_count > CAPS_THRESHOLD`
with short-circuiting, so the division is reached whenever
`alpha_count >= MIN_ALPHA_CHARS`; if `alpha_count` is zero at that point
the call raises `ZeroDivisionError`, modelled here as `none`. -/
def contains_too_much_caps (text : String) (threshold : ℚ) (minAlpha : ℕ) :
    Option Bool :=
  let caps := capsCount text
  let alpha := alphaCount text
  if minAlpha ≤ alpha then
    if alpha = 0 then none
    else some (decide (threshold < (caps : ℚ) / (alpha : ℚ)))
  else some false

/-- Membership of a single code point in the character class of
`EMOJI_PATTERN` (bot.py lines 32-41): the union of the six inclusive
ranges listed there.  `EMOJI_PATTERN.search` succeeds iff some character
of the text lies in this class (the trailing `+` requires a run of length
at least one, so a single qualifying character suffices). -/
def inEmojiRanges (c : Char) : Bool :=
  let n := c.toNat
  (0x1F600 ≤ n && n ≤ 0x1F64F)
  || (0x1F300 ≤ n && n ≤ 0x1F5FF)
  || (0x1F680 ≤ n && n ≤ 0x1F6FF)
  || (0x1F900 ≤ n && n ≤ 0x1F9FF)
  || (0x2702 ≤ n && n ≤ 0x27B0)
  || (0x24C2 ≤ n && n ≤ 0x1F251)

/-- The character class `[a-zA-Z0-9_]` of the custom-emoji regex
(bot.py line 67). -/
def isWordChar (c : Char) : Bool :=
  c.isAlpha || c.isDigit || c == '_'

/-- Recognises `[0-9]+>` at the head of the list (tail of the custom-emoji
regex `<[a]?:[a-zA-Z0-9_]+:[0-9]+>`).  Greedy matching with maximal munch
is equivalent to the regex here because `>` is not a digit. -/
def matchDigitsClose (l : List Char) : Bool :=
  !(l.takeWhile Char.isDigit).isEmpty &&
  (match l.dropWhile Char.isDigit with
   | c :: _ => c == '>'
   | [] => false)

/-- Recognises `[a-zA-Z0-9_]+:[0-9]+>` at the head of the list.  Maximal
munch is equivalent to the regex because `:` is not a word character. -/
def matchNameRest (l : List Char) : Bool :=
  !(l.takeWhile isWordChar).isEmpty &&
  (match l.dropWhile isWordChar with
   | c :: r => c == ':' && matchDigitsClose r
   | [] => false)

/-- Recognises `[a]?:[a-zA-Z0-9_]+:[0-9]+>` at the head of the list (what
follows the `<` of the custom-emoji regex).  The optional `a` is
deterministic because `a ≠ :`. -/
def matchAfterLt (l : List Char) : Bool :=
  match l with
  | c :: r =>
    if c == ':' then matchNameRest r
    else if c == 'a' then
      match r with
      | c2 :: r2 => c2 == ':' && matchNameRest r2
      | [] => false
    else false
  | [] => false

/-- Recognises the full custom-emoji regex `<[a]?:[a-zA-Z0-9_]+:[0-9]+>`
anchored at the head of the list. -/
def customHere (l : List Char) : Bool :=
  match l with
  | c :: r => c == '<' && matchAfterLt r
  | [] => false

/-- Embedding of `re.search(r"<[a]?:[a-zA-Z0-9_]+:[0-9]+>", text)`
(bot.py line 67): try the anchored match at every suffix. -/
def searchCustom : List Char → Bool
  | [] => false
  | c :: r => customHere (c :: r) || searchCustom r

/-- Embedding of `contains_emojis` (bot.py lines 57-70): first the Unicode
character-class search, then the custom-emoji regex search. -/
def contains_emojis (text : String) : Bool :=
  if text.data.any inEmojiRanges then true
  else if searchCustom text.data then true
  else false

/-- The claim C4 characterisation of the custom-emoji check, written from
the spec: the text contains a substring consisting of `<`, an optional
`a`, `:`, one or more word characters, `:`, one or more digits, `>`. -/
def SpecCustom (s : String) : Prop :=
  ∃ pre opt name idd post : List Char,
    (opt = [] ∨ opt = ['a']) ∧
    name ≠ [] ∧ (∀ c ∈ name, isWordChar c = true) ∧
    idd ≠ [] ∧ (∀ c ∈ idd, c.isDigit = true) ∧
    s.data = pre ++ '<' :: (opt ++ ':' :: (name ++ ':' :: (idd ++ '>' :: post)))

/-- The two tunables read from config.json (bot.py lines 22-24). -/
structure Config where
  caps_threshold : ℚ
  min_alpha_chars : ℕ

/-- The fields of an inbound Discord message event that
`OrbisClient.on_message` inspects: whether `message.author == self.user`,
whether `message.channel` is a `discord.TextChannel`, whether
`self.user.mentioned_in(message)` holds, the author mention string, and
`message.content`. -/
structure Message where
  authorIsSelf : Bool
  channelIsText : Bool
  mentionsSelf : Bool
  authorMention : String
  content : String

/-- The caps-warning reply text (bot.py line 92). -/
def capsWarning (mention : String) : String :=
  "ugh, " ++ mention ++ ", why are you shouting? it\x27s rude. please use lowercase."

/-- The emoji-warning reply text (bot.py line 99). -/
def emojiWarning (mention : String) : String :=
  "i see those silly little pictures, " ++ mention ++ ". i find them deeply unserious. please desist."

/-- The mention-acknowledgement reply text (bot.py line 107). -/
def mentionAck (mention : String) : String :=
  "yes, " ++ mention ++ ". i\x27m here. and keep your voice down."

/-- Embedding of `OrbisClient.on_message` (bot.py lines 78-108): the list
of texts sent to the channel during one invocation, or `none` if the
invocation raises (which happens exactly when `contains_too_much_caps`
raises `ZeroDivisionError`). -/
def on_message (cfg : Config) (m : Message) : Option (List String) :=
  if m.authorIsSelf then some []
  else if !m.channelIsText then some []
  else
    match contains_too_much_caps m.content cfg.caps_threshold cfg.min_alpha_chars with
    | none => none
    | some true => some [capsWarning m.authorMention]
    | some false =>
      if contains_emojis m.content then some [emojiWarning m.authorMention]
      else if m.mentionsSelf then some [mentionAck m.authorMention]
      else some []

/-- Number of outbound sends an invocation performs: a raised invocation
has sent nothing by the time it raises (both sends happen after both
classifications in their branch). -/
def numSends : Option (List String) → ℕ
  | none => 0
  | some l => l.length

end Orbis

namespace Orbis

/-! ## Helper lemmas -/

/-- Unfolding lemma for `contains_too_much_caps`. -/
lemma caps_def (text : String) (thr : ℚ) (minAlpha : ℕ) :
    contains_too_much_caps text thr minAlpha =
      if minAlpha ≤ alphaCount text then
        if alphaCount text = 0 then none
        else some (decide (thr < (capsCount text : ℚ) / (alphaCount text : ℚ)))
      else some false := rfl

/-- "THIS IS BAD" has 9 letters, all uppercase, so with the default
configuration it is classified as shouting (9/9 = 1 > 0.6). -/
lemma caps_eval_this_is_bad :
    contains_too_much_caps "THIS IS BAD" 0.6 5 = some true := by
  have h1 : alphaCount "THIS IS BAD" = 9 := by decide
  have h2 : capsCount "THIS IS BAD" = 9 := by decide
  rw [caps_def, h1, h2]
  norm_num

/-- "AAAAA 😀" has 5 letters, all uppercase (the emoji is not a letter),
so with the default configuration it is classified as shouting. -/
lemma caps_eval_shout_emoji :
    contains_too_much_caps "AAAAA 😀" 0.6 5 = some true := by
  have h1 : alphaCount "AAAAA 😀" = 5 := by decide
  have h2 : capsCount "AAAAA 😀" = 5 := by decide
  rw [caps_def, h1, h2]
  norm_num

/-- "hello" has 5 letters, none uppercase: not shouting. -/
lemma caps_eval_hello :
    contains_too_much_caps "hello" 0.6 5 = some false := by
  have h1 : alphaCount "hello" = 5 := by decide
  have h2 : capsCount "hello" = 0 := by decide
  rw [caps_def, h1, h2]
  norm_num

/-- The hiragana greeting has 5 alphabetic characters (hiragana are
category `Lo`), none uppercase: not shouting. -/
lemma caps_eval_hiragana :
    contains_too_much_caps "こんにちは" 0.6 5 = some false := by
  have h1 : alphaCount "こんにちは" = 5 := by decide
  have h2 : capsCount "こんにちは" = 0 := by decide
  rw [caps_def, h1, h2]
  norm_num

/-- Filtering by a pointwise-weaker predicate keeps at least as many
elements. -/
lemma filter_length_mono {α : Type} (p q : α → Bool) (l : List α)
    (h : ∀ c ∈ l, p c = true → q c = true) :
    (l.filter p).length ≤ (l.filter q).length := by
  induction l with
  | nil => simp
  | cons a as ih =>
    have ih' := ih (fun c hc => h c (List.mem_cons_of_mem a hc))
    by_cases hp : p a = true
    · have hq := h a (List.mem_cons_self a as) hp
      simp only [List.filter_cons, hp, if_true, hq, List.length_cons]
      omega
    · rw [Bool.not_eq_true] at hp
      simp only [List.filter_cons, hp, Bool.false_eq_true, if_false]
      by_cases hq : q a = true
      · simp only [hq, if_true, List.length_cons]
        omega
      · rw [Bool.not_eq_true] at hq
        simp only [hq, Bool.false_eq_true, if_false]
        exact ih'

/-! ## Claims C1, C2, C3 -/

/-- C1 (counterexample): with `min_alpha_chars = 0`, a string with no
alphabetic characters reaches the division `caps_count / alpha_count`
with `alpha_count = 0`, so the call raises `ZeroDivisionError` (modelled
`none`) instead of returning false. -/
theorem caps_div_by_zero_cex :
    contains_too_much_caps "" 0.6 0 = none ∧ alphaCount "" = 0 :=
  ⟨rfl, rfl⟩

/-- C1 (amended): for every configuration with `minAlpha ≥ 1`,
`contains_too_much_caps` is total — it returns a boolean on every string,
and returns false on every string with `alphaCount = 0` (the short-circuit
`alpha_count >= MIN_ALPHA_CHARS` then prevents the division). -/
theorem caps_total_minAlpha_pos (text : String) (thr : ℚ) (minAlpha : ℕ)
    (h : 1 ≤ minAlpha) :
    (∃ b, contains_too_much_caps text thr minAlpha = some b) ∧
    (alphaCount text = 0 → contains_too_much_caps text thr minAlpha = some false) := by
  rw [caps_def]
  by_cases hle : minAlpha ≤ alphaCount text
  · have h0 : ¬ alphaCount text = 0 := by omega
    rw [if_pos hle, if_neg h0]
    exact ⟨⟨_, rfl⟩, fun hz => absurd hz h0⟩
  · rw [if_neg hle]
    exact ⟨⟨false, rfl⟩, fun _ => rfl⟩

theorem caps_total_minAlpha_pos_witness :
    1 ≤ 5 ∧
    ((∃ b, contains_too_much_caps "" 1 5 = some b) ∧
     (alphaCount "" = 0 → contains_too_much_caps "" 1 5 = some false)) :=
  ⟨by decide, caps_total_minAlpha_pos "" 1 5 (by decide)⟩

/-- C2: for every positive threshold, `contains_too_much_caps` returns
true iff `alphaCount ≥ minAlpha` and the caps ratio strictly exceeds the
threshold; it returns false whenever `alphaCount < minAlpha`, and returns
false when the ratio equals the threshold exactly. -/
theorem isShouting_iff_ratio_gt (text : String) (thr : ℚ) (minAlpha : ℕ)
    (hthr : 0 < thr) :
    (contains_too_much_caps text thr minAlpha = some true ↔
      (minAlpha ≤ alphaCount text ∧
        thr < (capsCount text : ℚ) / (alphaCount text : ℚ))) ∧
    (alphaCount text < minAlpha →
      contains_too_much_caps text thr minAlpha = some false) ∧
    ((capsCount text : ℚ) / (alphaCount text : ℚ) = thr →
      contains_too_much_caps text thr minAlpha = some false) := by
  rw [caps_def]
  by_cases hle : minAlpha ≤ alphaCount text
  · by_cases h0 : alphaCount text = 0
    · rw [if_pos hle, if_pos h0]
      refine ⟨⟨fun h => Option.noConfusion h, ?_⟩, fun h => ?_, fun h => ?_⟩
      · rintro ⟨-, h2⟩
        rw [h0, Nat.cast_zero, div_zero] at h2
        exact absurd h2 (by linarith)
      · exact absurd h (by omega)
      · rw [h0, Nat.cast_zero, div_zero] at h
        exact absurd h (ne_of_lt hthr)
    · rw [if_pos hle, if_neg h0]
      refine ⟨?_, fun h => ?_, fun h => ?_⟩
      · simp only [Option.some.injEq, decide_eq_true_eq]
        exact ⟨fun h => ⟨hle, h⟩, fun h => h.2⟩
      · exact absurd h (by omega)
      · rw [h]
        simp
  · rw [if_neg hle]
    refine ⟨⟨fun h => absurd (Option.some.inj h) Bool.false_ne_true, ?_⟩,
      fun _ => rfl, fun _ => rfl⟩
    rintro ⟨h1, -⟩
    exact absurd h1 hle

theorem isShouting_iff_ratio_gt_witness :
    0 < (1 : ℚ) ∧
    ((contains_too_much_caps "HELLO" 1 5 = some true ↔
      (5 ≤ alphaCount "HELLO" ∧
        (1 : ℚ) < (capsCount "HELLO" : ℚ) / (alphaCount "HELLO" : ℚ))) ∧
    (alphaCount "HELLO" < 5 →
      contains_too_much_caps "HELLO" 1 5 = some false) ∧
    ((capsCount "HELLO" : ℚ) / (alphaCount "HELLO" : ℚ) = 1 →
      contains_too_much_caps "HELLO" 1 5 = some false)) :=
  ⟨one_pos, isShouting_iff_ratio_gt "HELLO" 1 5 one_pos⟩

/-- C3 (counterexample): the circled capital letter Ⓐ (U+24B6) is
classified uppercase by Python (`Other_Uppercase`) but not alphabetic
(category `So`), so on the string "Ⓐ" the caps count exceeds the alpha
count. -/
theorem circled_letter_caps_gt_alpha_cex :
    pyIsUpper 'Ⓐ' = true ∧ pyIsAlpha 'Ⓐ' = false ∧
    ¬ (capsCount "Ⓐ" ≤ alphaCount "Ⓐ") := by
  decide

/-- C3 (amended): `capsCount` counts the characters Python classifies as
uppercase and `alphaCount` those it classifies as alphabetic; uppercase
does not imply alphabetic in Unicode, so `capsCount ≤ alphaCount` holds
exactly for strings whose uppercase characters are all alphabetic (in
particular for all ASCII strings). -/
theorem caps_le_alpha_of_upper_imp_alpha (s : String)
    (h : ∀ c ∈ s.data, pyIsUpper c = true → pyIsAlpha c = true) :
    capsCount s ≤ alphaCount s :=
  filter_length_mono pyIsUpper pyIsAlpha s.data h

theorem caps_le_alpha_of_upper_imp_alpha_witness :
    (∀ c ∈ "Hello".data, pyIsUpper c = true → pyIsAlpha c = true) ∧
    capsCount "Hello" ≤ alphaCount "Hello" :=
  ⟨by decide, caps_le_alpha_of_upper_imp_alpha "Hello" (by decide)⟩

end Orbis

namespace Orbis

/-! ## Claims C5, C6, C7, C8, C9 -/

/-- C5: for every message that is not self-authored, is in a text channel,
is classified as shouting and contains an emoji, the handler sends only
the caps warning (mentioning the author) — never the emoji warning or the
acknowledgement. -/
theorem caps_priority_over_emoji (cfg : Config) (m : Message)
    (h1 : m.authorIsSelf = false) (h2 : m.channelIsText = true)
    (h3 : contains_too_much_caps m.content cfg.caps_threshold cfg.min_alpha_chars
            = some true)
    (_h4 : contains_emojis m.content = true) :
    on_message cfg m = some [capsWarning m.authorMention] := by
  unfold on_message
  rw [h1, h2, h3]
  rfl

theorem caps_priority_over_emoji_witness :
    (false : Bool) = false ∧ (true : Bool) = true ∧
    contains_too_much_caps "AAAAA 😀" 0.6 5 = some true ∧
    contains_emojis "AAAAA 😀" = true ∧
    on_message ⟨0.6, 5⟩ ⟨false, true, false, "@u", "AAAAA 😀"⟩ =
      some [capsWarning "@u"] :=
  ⟨rfl, rfl, caps_eval_shout_emoji, by decide,
    caps_priority_over_emoji ⟨0.6, 5⟩ ⟨false, true, false, "@u", "AAAAA 😀"⟩
      rfl rfl caps_eval_shout_emoji (by decide)⟩

/-- C6: a self-authored message or a message in a non-text channel never
produces any reply, whatever its content. -/
theorem no_reply_self_or_nontext (cfg : Config) (m : Message)
    (h : m.authorIsSelf = true ∨ m.channelIsText = false) :
    on_message cfg m = some [] := by
  rcases h with h | h <;> simp [on_message, h]

theorem no_reply_self_or_nontext_witness :
    ((true : Bool) = true ∨ (true : Bool) = false) ∧
    on_message ⟨0.6, 5⟩ ⟨true, true, true, "@u", "AAAAA 😀"⟩ = some [] :=
  ⟨Or.inl rfl,
    no_reply_self_or_nontext ⟨0.6, 5⟩ ⟨true, true, true, "@u", "AAAAA 😀"⟩
      (Or.inl rfl)⟩

/-- C7: for a compliant message (not self-authored, text channel, not
shouting, no emoji), the handler sends exactly the acknowledgement when
the bot is mentioned and nothing otherwise. -/
theorem compliant_mention_ack (cfg : Config) (m : Message)
    (h1 : m.authorIsSelf = false) (h2 : m.channelIsText = true)
    (h3 : contains_too_much_caps m.content cfg.caps_threshold cfg.min_alpha_chars
            = some false)
    (h4 : contains_emojis m.content = false) :
    (m.mentionsSelf = true → on_message cfg m = some [mentionAck m.authorMention]) ∧
    (m.mentionsSelf = false → on_message cfg m = some []) := by
  constructor <;> intro h5 <;> simp [on_message, h1, h2, h3, h4, h5]

theorem compliant_mention_ack_witness :
    (false : Bool) = false ∧ (true : Bool) = true ∧
    contains_too_much_caps "hello" 0.6 5 = some false ∧
    contains_emojis "hello" = false ∧
    (((true : Bool) = true →
        on_message ⟨0.6, 5⟩ ⟨false, true, true, "@u", "hello"⟩ =
          some [mentionAck "@u"]) ∧
     ((true : Bool) = false →
        on_message ⟨0.6, 5⟩ ⟨false, true, true, "@u", "hello"⟩ = some [])) :=
  ⟨rfl, rfl, caps_eval_hello, by decide,
    compliant_mention_ack ⟨0.6, 5⟩ ⟨false, true, true, "@u", "hello"⟩
      rfl rfl caps_eval_hello (by decide)⟩

/-- C8: one invocation of the handler performs at most one outbound send;
an invocation that raises (`none`) has sent nothing. -/
theorem at_most_one_send (cfg : Config) (m : Message) :
    numSends (on_message cfg m) ≤ 1 := by
  cases hA : m.authorIsSelf with
  | true => simp [on_message, hA, numSends]
  | false =>
    cases hC : m.channelIsText with
    | false => simp [on_message, hA, hC, numSends]
    | true =>
      cases hQ : contains_too_much_caps m.content cfg.caps_threshold
          cfg.min_alpha_chars with
      | none => simp [on_message, hA, hC, hQ, numSends]
      | some b =>
        cases b with
        | true => simp [on_message, hA, hC, hQ, numSends]
        | false =>
          by_cases hE : contains_emojis m.content = true
          · simp [on_message, hA, hC, hQ, hE, numSends]
          · by_cases hM : m.mentionsSelf = true <;>
              simp [on_message, hA, hC, hQ, hE, hM, numSends]

/-- C9 (counterexample): "THIS IS BAD" does not have 11 letters — spaces
are not alphabetic, so `alphaCount` is 9, not 11, and the caps ratio is
9/9 = 1.0, not 0.818. -/
theorem this_is_bad_letter_count_cex : alphaCount "THIS IS BAD" ≠ 11 := by
  decide

/-- C9 (amended): with `caps_threshold = 0.6` and `min_alpha_chars = 5`,
the text "THIS IS BAD" has 9 letters, all 9 uppercase (ratio 1.0 > 0.6),
so for a non-self-authored message in a text channel the handler sends
the caps warning mentioning the author. -/
theorem end_to_end_this_is_bad :
    on_message ⟨0.6, 5⟩ ⟨false, true, false, "@author", "THIS IS BAD"⟩ =
      some [capsWarning "@author"] ∧
    alphaCount "THIS IS BAD" = 9 ∧ capsCount "THIS IS BAD" = 9 := by
  refine ⟨?_, by decide, by decide⟩
  unfold on_message
  rw [show (Config.mk 0.6 5).caps_threshold = 0.6 from rfl]
  simp [caps_eval_this_is_bad]

end Orbis

namespace Orbis

/-! ## Scanner correctness for the custom-emoji regex (claim C4) -/

/-- When a list starts with a block of characters satisfying `p` followed
by one that does not, `takeWhile`/`dropWhile` split it exactly there. -/
lemma takeWhile_all_append {p : Char → Bool} (xs : List Char) (y : Char)
    (ys : List Char) (hxs : ∀ c ∈ xs, p c = true) (hy : p y = false) :
    (xs ++ y :: ys).takeWhile p = xs ∧ (xs ++ y :: ys).dropWhile p = y :: ys := by
  induction xs with
  | nil =>
    simp [List.takeWhile_cons, List.dropWhile_cons, hy]
  | cons a as ih =>
    have ha := hxs a (List.mem_cons_self a as)
    have ih' := ih (fun c hc => hxs c (List.mem_cons_of_mem a hc))
    simp only [List.cons_append, List.takeWhile_cons, List.dropWhile_cons, ha,
      if_true, List.cons.injEq, true_and]
    exact ⟨ih'.1, ih'.2⟩

/-- `matchDigitsClose` recognises exactly the lists of the form
`digits ++ > :: anything` with at least one digit. -/
lemma matchDigitsClose_iff (l : List Char) :
    matchDigitsClose l = true ↔
      ∃ idd post : List Char, idd ≠ [] ∧ (∀ c ∈ idd, c.isDigit = true) ∧
        l = idd ++ '>' :: post := by
  constructor
  · intro h
    unfold matchDigitsClose at h
    rw [Bool.and_eq_true] at h
    obtain ⟨h1, h2⟩ := h
    split at h2
    case h_1 c r heq =>
      have hc : c = '>' := eq_of_beq h2
      have hl := (List.takeWhile_append_dropWhile Char.isDigit l).symm
      rw [heq, hc] at hl
      refine ⟨l.takeWhile Char.isDigit, r, ?_, fun c hc => List.mem_takeWhile_imp hc, hl⟩
      intro hnil
      rw [hnil] at h1
      cases h1
    case h_2 => cases h2
  · rintro ⟨idd, post, hne, hdig, rfl⟩
    have h := takeWhile_all_append (p := Char.isDigit) idd '>' post hdig (by decide)
    unfold matchDigitsClose
    rw [h.1, h.2]
    simp [hne]

/-- `matchNameRest` recognises exactly the lists of the form
`name ++ : :: digits ++ > :: anything` with nonempty word-character name
and at least one digit. -/
lemma matchNameRest_iff (l : List Char) :
    matchNameRest l = true ↔
      ∃ name idd post : List Char,
        name ≠ [] ∧ (∀ c ∈ name, isWordChar c = true) ∧
        idd ≠ [] ∧ (∀ c ∈ idd, c.isDigit = true) ∧
        l = name ++ ':' :: (idd ++ '>' :: post) := by
  constructor
  · intro h
    unfold matchNameRest at h
    rw [Bool.and_eq_true] at h
    obtain ⟨h1, h2⟩ := h
    split at h2
    case h_1 c r heq =>
      rw [Bool.and_eq_true] at h2
      have hc : c = ':' := eq_of_beq h2.1
      obtain ⟨idd, post, hi, hd, hr⟩ := (matchDigitsClose_iff r).mp h2.2
      have hl := (List.takeWhile_append_dropWhile isWordChar l).symm
      rw [heq, hc, hr] at hl
      refine ⟨l.takeWhile isWordChar, idd, post, ?_,
        fun c hc => List.mem_takeWhile_imp hc, hi, hd, hl⟩
      intro hnil
      rw [hnil] at h1
      cases h1
    case h_2 => cases h2
  · rintro ⟨name, idd, post, hn, hw, hi, hd, rfl⟩
    have h := takeWhile_all_append (p := isWordChar) name ':' (idd ++ '>' :: post)
      hw (by decide)
    unfold matchNameRest
    rw [h.1, h.2]
    simp [hn, (matchDigitsClose_iff (idd ++ '>' :: post)).mpr ⟨idd, post, hi, hd, rfl⟩]

/-- `matchAfterLt` recognises exactly what follows the `<` of the regex:
an optional `a`, then `:`, a nonempty word-character name, `:`, one or
more digits, `>`. -/
lemma matchAfterLt_iff (l : List Char) :
    matchAfterLt l = true ↔
      ∃ opt name idd post : List Char,
        (opt = [] ∨ opt = ['a']) ∧
        name ≠ [] ∧ (∀ c ∈ name, isWordChar c = true) ∧
        idd ≠ [] ∧ (∀ c ∈ idd, c.isDigit = true) ∧
        l = opt ++ ':' :: (name ++ ':' :: (idd ++ '>' :: post)) := by
  constructor
  · intro h
    unfold matchAfterLt at h
    split at h
    case h_1 c r =>
      split at h
      case isTrue hc =>
        obtain ⟨name, idd, post, hn, hw, hi, hd, hr⟩ := (matchNameRest_iff r).mp h
        exact ⟨[], name, idd, post, Or.inl rfl, hn, hw, hi, hd, by
          rw [List.nil_append, hr, eq_of_beq hc]⟩
      case isFalse hc =>
        split at h
        case isTrue hca =>
          split at h
          case h_1 c2 r2 =>
            rw [Bool.and_eq_true] at h
            obtain ⟨name, idd, post, hn, hw, hi, hd, hr⟩ :=
              (matchNameRest_iff r2).mp h.2
            refine ⟨['a'], name, idd, post, Or.inr rfl, hn, hw, hi, hd, ?_⟩
            rw [eq_of_beq hca, eq_of_beq h.1, hr]
            rfl
          case h_2 => cases h
        case isFalse hca => cases h
    case h_2 => cases h
  · rintro ⟨opt, name, idd, post, hopt, hn, hw, hi, hd, rfl⟩
    have hrest := (matchNameRest_iff (name ++ ':' :: (idd ++ '>' :: post))).mpr
      ⟨name, idd, post, hn, hw, hi, hd, rfl⟩
    rcases hopt with rfl | rfl
    · unfold matchAfterLt
      simp [hrest]
    · unfold matchAfterLt
      simp [hrest]

/-- `customHere` recognises exactly the full custom-emoji pattern anchored
at the head of the list. -/
lemma customHere_iff (l : List Char) :
    customHere l = true ↔
      ∃ opt name idd post : List Char,
        (opt = [] ∨ opt = ['a']) ∧
        name ≠ [] ∧ (∀ c ∈ name, isWordChar c = true) ∧
        idd ≠ [] ∧ (∀ c ∈ idd, c.isDigit = true) ∧
        l = '<' :: (opt ++ ':' :: (name ++ ':' :: (idd ++ '>' :: post))) := by
  constructor
  · intro h
    unfold customHere at h
    split at h
    case h_1 c r =>
      rw [Bool.and_eq_true] at h
      obtain ⟨opt, name, idd, post, hopt, hn, hw, hi, hd, hr⟩ :=
        (matchAfterLt_iff r).mp h.2
      exact ⟨opt, name, idd, post, hopt, hn, hw, hi, hd, by
        rw [eq_of_beq h.1, hr]⟩
    case h_2 => cases h
  · rintro ⟨opt, name, idd, post, hopt, hn, hw, hi, hd, rfl⟩
    unfold customHere
    simp [(matchAfterLt_iff (opt ++ ':' :: (name ++ ':' :: (idd ++ '>' :: post)))).mpr
      ⟨opt, name, idd, post, hopt, hn, hw, hi, hd, rfl⟩]

/-- `searchCustom` succeeds exactly when some suffix matches the anchored
pattern. -/
lemma searchCustom_iff (l : List Char) :
    searchCustom l = true ↔
      ∃ pre rest : List Char, l = pre ++ rest ∧ customHere rest = true := by
  induction l with
  | nil =>
    constructor
    · intro h
      cases h
    · rintro ⟨pre, rest, heq, hc⟩
      rw [List.nil_eq, List.append_eq_nil] at heq
      rw [heq.2] at hc
      cases hc
  | cons c r ih =>
    constructor
    · intro h
      unfold searchCustom at h
      rw [Bool.or_eq_true] at h
      rcases h with h | h
      · exact ⟨[], c :: r, rfl, h⟩
      · obtain ⟨pre, rest, heq, hc⟩ := ih.mp h
        exact ⟨c :: pre, rest, by rw [List.cons_append, heq], hc⟩
    · rintro ⟨pre, rest, heq, hc⟩
      unfold searchCustom
      rw [Bool.or_eq_true]
      cases pre with
      | nil =>
        rw [List.nil_append] at heq
        rw [← heq] at hc
        exact Or.inl hc
      | cons p ps =>
        rw [List.cons_append, List.cons.injEq] at heq
        right
        rw [heq.2] at ih ⊢
        exact ih.mpr ⟨ps, rest, rfl, hc⟩

/-- The executable custom-emoji search agrees with the declarative
substring characterisation written from the spec. -/
lemma searchCustom_iff_SpecCustom (s : String) :
    searchCustom s.data = true ↔ SpecCustom s := by
  rw [searchCustom_iff]
  constructor
  · rintro ⟨pre, rest, heq, hc⟩
    obtain ⟨opt, name, idd, post, hopt, hn, hw, hi, hd, hr⟩ :=
      (customHere_iff rest).mp hc
    exact ⟨pre, opt, name, idd, post, hopt, hn, hw, hi, hd, by rw [heq, hr]⟩
  · rintro ⟨pre, opt, name, idd, post, hopt, hn, hw, hi, hd, heq⟩
    exact ⟨pre, '<' :: (opt ++ ':' :: (name ++ ':' :: (idd ++ '>' :: post))), heq,
      (customHere_iff _).mpr ⟨opt, name, idd, post, hopt, hn, hw, hi, hd, rfl⟩⟩

/-- `contains_emojis` as a disjunction of its two checks. -/
lemma contains_emojis_eq (s : String) :
    contains_emojis s = (s.data.any inEmojiRanges || searchCustom s.data) := by
  unfold contains_emojis
  by_cases h1 : s.data.any inEmojiRanges = true
  · rw [if_pos h1, h1, Bool.true_or]
  · rw [if_neg h1]
    rw [Bool.not_eq_true] at h1
    rw [h1, Bool.false_or]
    by_cases h2 : searchCustom s.data = true
    · rw [if_pos h2, h2]
    · rw [if_neg h2]
      rw [Bool.not_eq_true] at h2
      rw [h2]

/-- A single code point is matched by `EMOJI_PATTERN` exactly when it
lies in one of the six inclusive ranges. -/
lemma inEmojiRanges_iff (c : Char) :
    inEmojiRanges c = true ↔
      ((0x1F600 ≤ c.toNat ∧ c.toNat ≤ 0x1F64F) ∨
       (0x1F300 ≤ c.toNat ∧ c.toNat ≤ 0x1F5FF) ∨
       (0x1F680 ≤ c.toNat ∧ c.toNat ≤ 0x1F6FF) ∨
       (0x1F900 ≤ c.toNat ∧ c.toNat ≤ 0x1F9FF) ∨
       (0x2702 ≤ c.toNat ∧ c.toNat ≤ 0x27B0) ∨
       (0x24C2 ≤ c.toNat ∧ c.toNat ≤ 0x1F251)) := by
  simp only [inEmojiRanges, Bool.or_eq_true, Bool.and_eq_true, decide_eq_true_eq]
  omega

/-! ## Claims C4 and C10 -/

/-- C4: `contains_emojis` returns true exactly when some code point of the
text lies in one of the six inclusive ranges of `EMOJI_PATTERN`, or the
text contains a custom-emoji substring `<`, optional `a`, `:`, one or more
characters of `[A-Za-z0-9_]`, `:`, one or more digits, `>`; and the five
concrete spec examples evaluate as stated. -/
theorem emoji_characterisation :
    (∀ s : String, contains_emojis s = true ↔
      ((∃ c ∈ s.data,
          (0x1F600 ≤ c.toNat ∧ c.toNat ≤ 0x1F64F) ∨
          (0x1F300 ≤ c.toNat ∧ c.toNat ≤ 0x1F5FF) ∨
          (0x1F680 ≤ c.toNat ∧ c.toNat ≤ 0x1F6FF) ∨
          (0x1F900 ≤ c.toNat ∧ c.toNat ≤ 0x1F9FF) ∨
          (0x2702 ≤ c.toNat ∧ c.toNat ≤ 0x27B0) ∨
          (0x24C2 ≤ c.toNat ∧ c.toNat ≤ 0x1F251)) ∨ SpecCustom s)) ∧
    contains_emojis "hello" = false ∧
    contains_emojis "hello 😀" = true ∧
    contains_emojis "<:smile:123456789012345678>" = true ∧
    contains_emojis "<a:wave:987654321098765432>" = true ∧
    contains_emojis "<:bad_id:>" = false := by
  refine ⟨fun s => ?_, by decide, by decide, by decide, by decide, by decide⟩
  rw [contains_emojis_eq, Bool.or_eq_true, List.any_eq_true,
    searchCustom_iff_SpecCustom]
  exact or_congr_left (exists_congr fun c =>
    and_congr_right fun _ => inEmojiRanges_iff c)

/-- C10: every string containing a single code point in the inclusive
range U+24C2..U+1F251 (which covers, among much else, hiragana, katakana,
CJK ideographs and Hangul syllables) is classified as containing an
emoji, and a non-self-authored text-channel message with such content
that is not shouting receives the emoji warning. -/
theorem wide_range_triggers_emoji (s : String) (c : Char) (hmem : c ∈ s.data)
    (h1 : 0x24C2 ≤ c.toNat) (h2 : c.toNat ≤ 0x1F251) :
    contains_emojis s = true ∧
    (∀ (cfg : Config) (m : Message), m.content = s → m.authorIsSelf = false →
      m.channelIsText = true →
      contains_too_much_caps s cfg.caps_threshold cfg.min_alpha_chars = some false →
      on_message cfg m = some [emojiWarning m.authorMention]) := by
  have hany : s.data.any inEmojiRanges = true := by
    rw [List.any_eq_true]
    refine ⟨c, hmem, ?_⟩
    rw [inEmojiRanges_iff]
    omega
  have hemoji : contains_emojis s = true := by
    unfold contains_emojis
    rw [if_pos hany]
  refine ⟨hemoji, fun cfg m hcontent hA hC hcaps => ?_⟩
  unfold on_message
  rw [hA, hC, hcontent, hcaps, hemoji]
  rfl

theorem wide_range_triggers_emoji_witness :
    ('こ' ∈ "こんにちは".data) ∧
    0x24C2 ≤ 'こ'.toNat ∧ 'こ'.toNat ≤ 0x1F251 ∧
    contains_emojis "こんにちは" = true ∧
    on_message ⟨0.6, 5⟩ ⟨false, true, false, "@u", "こんにちは"⟩ =
      some [emojiWarning "@u"] := by
  have h := wide_range_triggers_emoji "こんにちは" 'こ' (by decide) (by decide)
    (by decide)
  exact ⟨by decide, by decide, by decide, h.1,
    h.2 ⟨0.6, 5⟩ ⟨false, true, false, "@u", "こんにちは"⟩ rfl rfl rfl
      caps_eval_hiragana⟩

end Orbis
